import Mathlib

/-!
Shallow embedding of the qa-system repository (src/src/utils.py and
src/app/streamlit_app.py).

Python strings are modelled as `List Char`; Python byte streams as
`List Nat`.  `str.lower()` is modelled character-wise with `Char.toLower`
and `str.strip()` with `Char.isWhitespace`, which is faithful on ASCII
text.  The external decoding libraries (PyPDF2, python-docx, UTF-8
decoding) are modelled as `Except`-valued parameters: `Except.ok` is a
successful decode (list of page/paragraph texts, or the decoded text),
`Except.error` is the exception message that the Python `try`/`except`
block would catch.  The QA pipeline (the oracle) is likewise an
`Except`-valued parameter.
-/

/-- Python `s.lower()`, character-wise. -/
def pyLower (l : List Char) : List Char := l.map Char.toLower

/-- Python `s.strip()`: drop whitespace from both ends. -/
def pyStrip (l : List Char) : List Char :=
  ((l.dropWhile Char.isWhitespace).reverse.dropWhile Char.isWhitespace).reverse

/-- Python slice `l[s:e]` for non-negative bounds. -/
def pySlice (l : List Char) (s e : Nat) : List Char := (l.drop s).take (e - s)

/-- Boolean test that `n` is a prefix of `h`. -/
def isPre : List Char → List Char → Bool
  | [], _ => true
  | _ :: _, [] => false
  | a :: as, b :: bs => a == b && isPre as bs

/-- Python `hay.find(needle)`: index of the first occurrence, `none` for -1.
Searching for the empty needle succeeds at index 0, as in Python. -/
def firstOccur : List Char → List Char → Option Nat
  | [], needle => if isPre needle [] then some 0 else none
  | a :: t, needle =>
    if isPre needle (a :: t) then some 0
    else Option.map (· + 1) (firstOccur t needle)

/-- Python `name.split('.')` (single-character separator): always returns a
non-empty list; a string with no dot yields the one-element list of itself. -/
def pySplitDot : List Char → List (List Char)
  | [] => [[]]
  | c :: rest =>
    match pySplitDot rest with
    | [] => [[]]
    | g :: gs => if c = '.' then [] :: g :: gs else (c :: g) :: gs

/-- Model of `uploaded_file.name.split('.')[-1].lower()` from
`process_uploaded_file` (src/src/utils.py line 77). -/
def extensionOf (name : List Char) : List Char :=
  pyLower ((pySplitDot name).getLastD [])

/-- Model of `extract_text_from_pdf` (src/src/utils.py lines 8-27).  The PyPDF2
decode (`PdfReader` plus per-page `extract_text`) is abstracted as an
`Except` value: `ok pages` is the list of page texts, `error e` the
exception message.  On success the page texts are concatenated, each
followed by a newline, and the result is stripped. -/
def extract_text_from_pdf (decoded : Except (List Char) (List (List Char))) : List Char :=
  match decoded with
  | Except.ok pages => pyStrip (pages.foldl (fun text page => text ++ page ++ ['\n']) [])
  | Except.error e => "Error reading PDF: ".data ++ e

/-- Model of `extract_text_from_docx` (src/src/utils.py lines 29-48), with the
python-docx decode abstracted as an `Except` value over paragraph texts. -/
def extract_text_from_docx (decoded : Except (List Char) (List (List Char))) : List Char :=
  match decoded with
  | Except.ok paragraphs =>
      pyStrip (paragraphs.foldl (fun text p => text ++ p ++ ['\n']) [])
  | Except.error e => "Error reading DOCX: ".data ++ e

/-- Model of `extract_text_from_txt` (src/src/utils.py lines 50-65), with the UTF-8
decode of the raw bytes abstracted as an `Except` value. -/
def extract_text_from_txt (decoded : Except (List Char) (List Char)) : List Char :=
  match decoded with
  | Except.ok text => pyStrip text
  | Except.error e => "Error reading TXT: ".data ++ e

/-- Model of `process_uploaded_file` (src/src/utils.py lines 67-86): dispatch on the
lowercased extension after the last dot of the filename.  The three
decoders stand for the external libraries applied to the file's bytes. -/
def process_uploaded_file
    (pdfDecode : List Nat → Except (List Char) (List (List Char)))
    (docxDecode : List Nat → Except (List Char) (List (List Char)))
    (txtDecode : List Nat → Except (List Char) (List Char))
    (name : List Char) (fileBytes : List Nat) : List Char :=
  let file_extension := extensionOf name
  if file_extension = "pdf".data then extract_text_from_pdf (pdfDecode fileBytes)
  else if file_extension = "docx".data then extract_text_from_docx (docxDecode fileBytes)
  else if file_extension = "txt".data then extract_text_from_txt (txtDecode fileBytes)
  else "Unsupported file format. Please upload PDF, DOCX, or TXT files.".data

/-- The f-string marker `"\n\n[Text truncated to {max_length} characters]"`
from src/src/utils.py line 100. -/
def truncMarker (max_length : Nat) : List Char :=
  "\n\n[Text truncated to ".data ++ (Nat.repr max_length).data ++ " characters]".data

/-- Model of `truncate_text` (src/src/utils.py lines 88-101). -/
def truncate_text (text : List Char) (max_length : Nat) : List Char :=
  if max_length < text.length then text.take max_length ++ truncMarker max_length
  else text

/-- The default `max_length=5000` used at src/app/streamlit_app.py line 113. -/
def max_length_default : Nat := 5000

/-- The context the app stores after an upload
(src/app/streamlit_app.py lines 110-115):
`truncate_text(process_uploaded_file(uploaded_file), max_length=5000)`. -/
def stored_context
    (pdfDecode docxDecode : List Nat → Except (List Char) (List (List Char)))
    (txtDecode : List Nat → Except (List Char) (List Char))
    (name : List Char) (fileBytes : List Nat) : List Char :=
  truncate_text (process_uploaded_file pdfDecode docxDecode txtDecode name fileBytes)
    max_length_default

/-- The fixed 100-character context window radius
(src/app/streamlit_app.py lines 212-213). -/
def windowRadius : Nat := 100

/-- The ellipsis marker `"..."` (src/app/streamlit_app.py lines 220-223). -/
def ellipsis : List Char := "...".data

/-- The highlight view computed at src/app/streamlit_app.py lines 207-223. -/
structure Highlight where
  found : Bool
  before : List Char
  answer : List Char
  after : List Char
deriving Repr, DecidableEq

/-- The answer-localization block of src/app/streamlit_app.py lines 207-223:
`answer_start = context.lower().find(answer.lower())`; when found, slice a
100-character window around the occurrence in the original context and add
ellipses at clipped edges.  Nat subtraction `s - windowRadius` models
`max(0, answer_start - 100)`. -/
def locate (context answer : List Char) : Highlight :=
  match firstOccur (pyLower context) (pyLower answer) with
  | none => { found := false, before := [], answer := [], after := [] }
  | some s =>
    let e := s + answer.length
    let ws := s - windowRadius
    let we := min context.length (e + windowRadius)
    let before := pySlice context ws s
    let ans := pySlice context s e
    let after := pySlice context e we
    { found := true
      before := if 0 < ws then ellipsis ++ before else before
      answer := ans
      after := if we < context.length then after ++ ellipsis else after }

/-- The oracle's result `{answer, score}`; the float score is modelled as a
rational. -/
structure QAResult where
  answer : List Char
  score : Rat

/-- Outcome of pressing the ask button (src/app/streamlit_app.py
lines 155-165 and 233-234). -/
inductive AskOutcome where
  | validationError (msg : List Char)
  | answered (r : QAResult)
  | oracleError (msg : List Char)

/-- The ask-button handler (src/app/streamlit_app.py lines 155-165):
validate the trimmed context then the trimmed question; only then call the
QA pipeline, whose fault is caught and rendered as an error message.  The
oracle is a parameter taking the question and the context. -/
def handle_ask (oracle : List Char → List Char → Except (List Char) QAResult)
    (context question : List Char) : AskOutcome :=
  if pyStrip context = [] then
    AskOutcome.validationError "⚠️ Please provide some context text first!".data
  else if pyStrip question = [] then
    AskOutcome.validationError "⚠️ Please enter a question!".data
  else
    match oracle question context with
    | Except.ok r => AskOutcome.answered r
    | Except.error e => AskOutcome.oracleError ("❌ Error: ".data ++ e)

/-! ### Helper lemmas about the embedded primitives -/

theorem isPre_iff (n h : List Char) : isPre n h = true ↔ n <+: h := by
  induction n generalizing h with
  | nil => simp [isPre]
  | cons a as ih =>
    cases h with
    | nil => simp [isPre]
    | cons b bs => simp [isPre, ih, List.cons_prefix_cons]

theorem firstOccur_some_pre {hay needle : List Char} {s : Nat}
    (h : firstOccur hay needle = some s) : needle <+: hay.drop s := by
  induction hay generalizing s with
  | nil =>
    rw [firstOccur] at h
    split at h
    next hcond =>
      cases h
      simpa using (isPre_iff _ _).mp hcond
    next => exact absurd h (by simp)
  | cons a t ih =>
    rw [firstOccur] at h
    split at h
    next hcond =>
      cases h
      simpa using (isPre_iff _ _).mp hcond
    next =>
      obtain ⟨s', hs', rfl⟩ := Option.map_eq_some'.mp h
      rw [List.drop_succ_cons]
      exact ih hs'

theorem firstOccur_some_min {hay needle : List Char} {s : Nat}
    (h : firstOccur hay needle = some s) :
    ∀ m, m < s → ¬ needle <+: hay.drop m := by
  induction hay generalizing s with
  | nil =>
    rw [firstOccur] at h
    split at h
    next => cases h; omega
    next => exact absurd h (by simp)
  | cons a t ih =>
    rw [firstOccur] at h
    split at h
    next => cases h; omega
    next hcond =>
      obtain ⟨s', hs', rfl⟩ := Option.map_eq_some'.mp h
      intro m hm
      cases m with
      | zero =>
        intro hpre
        exact absurd ((isPre_iff _ _).mpr (by simpa using hpre)) hcond
      | succ m' =>
        rw [List.drop_succ_cons]
        exact ih hs' m' (by omega)

theorem firstOccur_none {hay needle : List Char}
    (h : firstOccur hay needle = none) : ∀ m, ¬ needle <+: hay.drop m := by
  induction hay with
  | nil =>
    rw [firstOccur] at h
    split at h
    next => exact absurd h (by simp)
    next hcond =>
      intro m hpre
      have hn : needle = [] := by simpa using hpre
      subst hn
      exact absurd ((isPre_iff _ _).mpr (by simp)) hcond
  | cons a t ih =>
    rw [firstOccur] at h
    split at h
    next => exact absurd h (by simp)
    next hcond =>
      have ht : firstOccur t needle = none := by
        cases hx : firstOccur t needle with
        | none => rfl
        | some v => rw [hx] at h; simp at h
      intro m
      cases m with
      | zero =>
        intro hpre
        exact absurd ((isPre_iff _ _).mpr (by simpa using hpre)) hcond
      | succ m' =>
        rw [List.drop_succ_cons]
        exact ih ht m'

theorem infix_iff_exists_drop (needle hay : List Char) :
    needle <:+: hay ↔ ∃ n, needle <+: hay.drop n := by
  constructor
  · rintro ⟨s, t, rfl⟩
    refine ⟨s.length, ?_⟩
    rw [List.append_assoc, List.drop_left]
    exact ⟨t, rfl⟩
  · rintro ⟨n, t, ht⟩
    refine ⟨hay.take n, t, ?_⟩
    rw [List.append_assoc, ht, List.take_append_drop]

theorem pySlice_length_le (l : List Char) (s e : Nat) :
    (pySlice l s e).length ≤ e - s := by
  simp only [pySlice, List.length_take]
  exact min_le_left _ _

theorem pySplitDot_cons (c : Char) (rest g : List Char) (gs : List (List Char))
    (h : pySplitDot rest = g :: gs) :
    pySplitDot (c :: rest) = if c = '.' then [] :: g :: gs else (c :: g) :: gs := by
  rw [pySplitDot, h]

theorem pySplitDot_ne_nil (l : List Char) : pySplitDot l ≠ [] := by
  induction l with
  | nil => simp [pySplitDot]
  | cons c rest ih =>
    cases hps : pySplitDot rest with
    | nil => exact absurd hps ih
    | cons g gs =>
      rw [pySplitDot_cons c rest g gs hps]
      split <;> simp

theorem pySplitDot_no_dot {l : List Char} (h : '.' ∉ l) : pySplitDot l = [l] := by
  induction l with
  | nil => rfl
  | cons c rest ih =>
    have hc : ¬ c = '.' := fun he => h (by simp [he])
    have hrest : '.' ∉ rest := fun hm => h (List.mem_cons_of_mem _ hm)
    rw [pySplitDot_cons c rest rest [] (ih hrest), if_neg hc]

theorem pySplitDot_length_two {l : List Char} (h : '.' ∈ l) :
    2 ≤ (pySplitDot l).length := by
  induction l with
  | nil => simp at h
  | cons c rest ih =>
    cases hps : pySplitDot rest with
    | nil => exact absurd hps (pySplitDot_ne_nil rest)
    | cons g gs =>
      rw [pySplitDot_cons c rest g gs hps]
      by_cases hc : c = '.'
      · rw [if_pos hc]; simp
      · rw [if_neg hc]
        have hrest : '.' ∈ rest := by
          rcases List.mem_cons.mp h with h1 | h1
          · exact absurd h1.symm hc
          · exact h1
        have h2 := ih hrest
        rw [hps] at h2
        simpa using h2

theorem getLastD_append_dot (pre s : List Char) (h : '.' ∉ s) :
    (pySplitDot (pre ++ '.' :: s)).getLastD [] = s := by
  induction pre with
  | nil =>
    rw [List.nil_append,
      pySplitDot_cons '.' s s [] (pySplitDot_no_dot h), if_pos rfl]
    rfl
  | cons c pre ih =>
    rw [List.cons_append]
    cases hps : pySplitDot (pre ++ '.' :: s) with
    | nil => exact absurd hps (pySplitDot_ne_nil _)
    | cons g gs =>
      rw [pySplitDot_cons c _ g gs hps]
      have hlen : 2 ≤ (g :: gs).length := by
        rw [← hps]
        exact pySplitDot_length_two (by simp)
      rw [hps] at ih
      cases gs with
      | nil => simp at hlen
      | cons g2 gs2 =>
        by_cases hc : c = '.'
        · rw [if_pos hc]
          rw [List.getLastD_cons]
          exact ih
        · rw [if_neg hc]
          rw [List.getLastD_cons] at ih ⊢
          rw [List.getLastD_cons] at ih ⊢
          exact ih

theorem take_min_length (l : List Char) (n : Nat) :
    l.take (min l.length n) = l.take n := by
  rcases le_total l.length n with hle | hle
  · rw [min_eq_left hle, List.take_length, List.take_of_length_le hle]
  · rw [min_eq_right hle]

/-- A trivially succeeding page decoder, used to instantiate theorems at
concrete inputs. -/
def decodeOkPages : List Nat → Except (List Char) (List (List Char)) :=
  fun _ => Except.ok []

/-- A failing text decoder with a fixed message, used to instantiate
theorems at concrete inputs. -/
def decodeFailTxt : List Nat → Except (List Char) (List Char) :=
  fun _ => Except.error "bad".data

/-! ### The claims -/

/-- Claim C2: for every text `t` and maximum length `m` with
`length t > m`, `truncate_text t m` is the first `m` characters of `t`
followed by the literal marker, so its length is exactly
`m + length (truncMarker m)` and its output starts with `t.take m`. -/
theorem truncate_long (t : List Char) (m : Nat) (h : m < t.length) :
    truncate_text t m = t.take m ++ truncMarker m ∧
    (truncate_text t m).length = m + (truncMarker m).length ∧
    t.take m <+: truncate_text t m := by
  have he : truncate_text t m = t.take m ++ truncMarker m := by
    unfold truncate_text
    rw [if_pos h]
  refine ⟨he, ?_, ?_⟩
  · rw [he, List.length_append, List.length_take, min_eq_left (le_of_lt h)]
  · rw [he]
    exact List.prefix_append _ _

/-- Witness for C2 at the spec's own scenario `truncate("abcdef", 3)`. -/
theorem truncate_long_witness :
    3 < ("abcdef".data).length ∧
    truncate_text "abcdef".data 3 = ("abcdef".data).take 3 ++ truncMarker 3 ∧
    truncMarker 3 = "\n\n[Text truncated to 3 characters]".data :=
  ⟨by decide, (truncate_long "abcdef".data 3 (by decide)).1, by decide⟩

/-- Claim C3: for every text `t` and maximum length `m` with
`length t ≤ m`, `truncate_text t m` returns `t` unchanged. -/
theorem truncate_short (t : List Char) (m : Nat) (h : t.length ≤ m) :
    truncate_text t m = t := by
  unfold truncate_text
  rw [if_neg (by omega)]

/-- Witness for C3 at a concrete short input. -/
theorem truncate_short_witness :
    ("ab".data).length ≤ 5 ∧ truncate_text "ab".data 5 = "ab".data :=
  ⟨by decide, truncate_short "ab".data 5 (by decide)⟩

/-- Claim C5: for every extension outside pdf/docx/txt, extraction returns
exactly the fixed unsupported-format string, for every byte content and
every decoder behaviour. -/
theorem unsupported_extension
    (pdfDecode docxDecode : List Nat → Except (List Char) (List (List Char)))
    (txtDecode : List Nat → Except (List Char) (List Char))
    (name : List Char) (bytes : List Nat)
    (h1 : extensionOf name ≠ "pdf".data)
    (h2 : extensionOf name ≠ "docx".data)
    (h3 : extensionOf name ≠ "txt".data) :
    process_uploaded_file pdfDecode docxDecode txtDecode name bytes =
      "Unsupported file format. Please upload PDF, DOCX, or TXT files.".data := by
  simp only [process_uploaded_file]
  rw [if_neg h1, if_neg h2, if_neg h3]

/-- Witness for C5 at the spec's own scenario `extract(bytes, "csv")`. -/
theorem unsupported_extension_witness :
    extensionOf "a.csv".data ≠ "pdf".data ∧
    extensionOf "a.csv".data ≠ "docx".data ∧
    extensionOf "a.csv".data ≠ "txt".data ∧
    process_uploaded_file decodeOkPages decodeOkPages decodeFailTxt "a.csv".data [] =
      "Unsupported file format. Please upload PDF, DOCX, or TXT files.".data :=
  ⟨by decide, by decide, by decide,
   unsupported_extension decodeOkPages decodeOkPages decodeFailTxt "a.csv".data []
     (by decide) (by decide) (by decide)⟩

/-- Claim C7: if the trimmed context or the trimmed question is empty, the
ask handler produces a validation failure message, and the oracle is never
invoked: the outcome is the same validation error for every oracle. -/
theorem validation_before_oracle (context question : List Char)
    (h : pyStrip context = [] ∨ pyStrip question = []) :
    ∃ m, ∀ oracle, handle_ask oracle context question =
      AskOutcome.validationError m := by
  by_cases hc : pyStrip context = []
  · exact ⟨"⚠️ Please provide some context text first!".data,
      fun oracle => by simp [handle_ask, hc]⟩
  · have hq : pyStrip question = [] := h.resolve_left hc
    exact ⟨"⚠️ Please enter a question!".data,
      fun oracle => by simp [handle_ask, hc, hq]⟩

/-- Witness for C7: empty context, non-empty question. -/
theorem validation_before_oracle_witness :
    (pyStrip [] = [] ∨ pyStrip ['q'] = []) ∧
    ∃ m, ∀ oracle, handle_ask oracle [] ['q'] = AskOutcome.validationError m :=
  ⟨Or.inl rfl, validation_before_oracle [] ['q'] (Or.inl rfl)⟩

/-- Claim C8: for every text and maximum length the truncated text is at
most `m + length (truncMarker m)` long, and in particular every context the
app stores after an upload is bounded by `5000 + length (truncMarker 5000)`. -/
theorem normalized_context_bound :
    (∀ (text : List Char) (m : Nat),
      (truncate_text text m).length ≤ m + (truncMarker m).length) ∧
    (∀ (pdfDecode docxDecode : List Nat → Except (List Char) (List (List Char)))
      (txtDecode : List Nat → Except (List Char) (List Char))
      (name : List Char) (bytes : List Nat),
      (stored_context pdfDecode docxDecode txtDecode name bytes).length ≤
        max_length_default + (truncMarker max_length_default).length) := by
  have hgen : ∀ (text : List Char) (m : Nat),
      (truncate_text text m).length ≤ m + (truncMarker m).length := by
    intro text m
    unfold truncate_text
    split
    next hlt =>
      rw [List.length_append, List.length_take, min_eq_left (le_of_lt hlt)]
    next hge =>
      omega
  exact ⟨hgen, fun pdfDecode docxDecode txtDecode name bytes => hgen _ _⟩

/-- Claim C4: extraction never raises past its boundary.  For each
supported extension the result is determined by the decoder outcome
applied to the byte input: a successful decode yields the stripped decoded
text, and any decoding fault with message `e` yields exactly the string
`"Error reading <FORMAT>: " ++ e`, where FORMAT names the attempted format
(PDF, DOCX or TXT). -/
theorem extract_never_raises
    (pdfDecode docxDecode : List Nat → Except (List Char) (List (List Char)))
    (txtDecode : List Nat → Except (List Char) (List Char))
    (name : List Char) (bytes : List Nat) :
    (extensionOf name = "pdf".data →
      (∀ pages, pdfDecode bytes = Except.ok pages →
        process_uploaded_file pdfDecode docxDecode txtDecode name bytes =
          pyStrip (pages.foldl (fun text page => text ++ page ++ ['\n']) [])) ∧
      (∀ e, pdfDecode bytes = Except.error e →
        process_uploaded_file pdfDecode docxDecode txtDecode name bytes =
          "Error reading PDF: ".data ++ e)) ∧
    (extensionOf name = "docx".data →
      (∀ paragraphs, docxDecode bytes = Except.ok paragraphs →
        process_uploaded_file pdfDecode docxDecode txtDecode name bytes =
          pyStrip (paragraphs.foldl (fun text p => text ++ p ++ ['\n']) [])) ∧
      (∀ e, docxDecode bytes = Except.error e →
        process_uploaded_file pdfDecode docxDecode txtDecode name bytes =
          "Error reading DOCX: ".data ++ e)) ∧
    (extensionOf name = "txt".data →
      (∀ text, txtDecode bytes = Except.ok text →
        process_uploaded_file pdfDecode docxDecode txtDecode name bytes =
          pyStrip text) ∧
      (∀ e, txtDecode bytes = Except.error e →
        process_uploaded_file pdfDecode docxDecode txtDecode name bytes =
          "Error reading TXT: ".data ++ e)) := by
  refine ⟨fun hext => ⟨fun pages hdec => ?_, fun e hdec => ?_⟩,
    fun hext => ⟨fun paragraphs hdec => ?_, fun e hdec => ?_⟩,
    fun hext => ⟨fun text hdec => ?_, fun e hdec => ?_⟩⟩
  · simp only [process_uploaded_file]
    rw [if_pos hext, hdec]
    rfl
  · simp only [process_uploaded_file]
    rw [if_pos hext, hdec]
    rfl
  · simp only [process_uploaded_file]
    rw [if_neg (by rw [hext]; decide), if_pos hext, hdec]
    rfl
  · simp only [process_uploaded_file]
    rw [if_neg (by rw [hext]; decide), if_pos hext, hdec]
    rfl
  · simp only [process_uploaded_file]
    rw [if_neg (by rw [hext]; decide), if_neg (by rw [hext]; decide), if_pos hext, hdec]
    rfl
  · simp only [process_uploaded_file]
    rw [if_neg (by rw [hext]; decide), if_neg (by rw [hext]; decide), if_pos hext, hdec]
    rfl

/-- Witness for C4: a txt upload whose UTF-8 decode fails with message
"bad" produces exactly the TXT error string. -/
theorem extract_never_raises_witness :
    extensionOf "a.txt".data = "txt".data ∧
    decodeFailTxt [] = Except.error "bad".data ∧
    process_uploaded_file decodeOkPages decodeOkPages decodeFailTxt "a.txt".data [] =
      "Error reading TXT: ".data ++ "bad".data :=
  ⟨by decide, rfl,
   ((extract_never_raises decodeOkPages decodeOkPages decodeFailTxt
      "a.txt".data []).2.2 (by decide)).2 "bad".data rfl⟩

/-- Claim C10: the dispatch extension is the lowercased substring after the
last dot of the filename: every filename ending in `".PDF"` is processed as
pdf, and a dot-less filename is its own lowercased extension, so a file
named `"txt"` is processed as a txt file. -/
theorem extension_dispatch_spec
    (pdfDecode docxDecode : List Nat → Except (List Char) (List (List Char)))
    (txtDecode : List Nat → Except (List Char) (List Char))
    (bytes : List Nat) :
    (∀ pre : List Char, extensionOf (pre ++ ".PDF".data) = "pdf".data) ∧
    (∀ name : List Char, '.' ∉ name → extensionOf name = pyLower name) ∧
    (∀ pre : List Char,
      process_uploaded_file pdfDecode docxDecode txtDecode (pre ++ ".PDF".data) bytes =
        extract_text_from_pdf (pdfDecode bytes)) ∧
    (process_uploaded_file pdfDecode docxDecode txtDecode "txt".data bytes =
      extract_text_from_txt (txtDecode bytes)) := by
  have hpdf : ∀ pre : List Char, extensionOf (pre ++ ".PDF".data) = "pdf".data := by
    intro pre
    have : (".PDF".data : List Char) = '.' :: "PDF".data := rfl
    rw [extensionOf, this, getLastD_append_dot pre "PDF".data (by decide)]
    decide
  have hnodot : ∀ name : List Char, '.' ∉ name → extensionOf name = pyLower name := by
    intro name hn
    rw [extensionOf, pySplitDot_no_dot hn]
    rfl
  refine ⟨hpdf, hnodot, ?_, ?_⟩
  · intro pre
    simp only [process_uploaded_file]
    rw [hpdf pre, if_pos rfl]
  · simp only [process_uploaded_file]
    rw [show extensionOf "txt".data = "txt".data from by decide,
      if_neg (by decide), if_neg (by decide), if_pos rfl]

/-- Witness for C10 at the filenames `"a.PDF"` and `"txt"`. -/
theorem extension_dispatch_spec_witness :
    extensionOf ("a".data ++ ".PDF".data) = "pdf".data ∧
    ('.' ∉ "txt".data ∧ extensionOf "txt".data = pyLower "txt".data) ∧
    process_uploaded_file decodeOkPages decodeOkPages decodeFailTxt "txt".data [] =
      extract_text_from_txt (decodeFailTxt []) :=
  ⟨(extension_dispatch_spec decodeOkPages decodeOkPages decodeFailTxt []).1 "a".data,
   ⟨by decide,
    (extension_dispatch_spec decodeOkPages decodeOkPages decodeFailTxt []).2.1
      "txt".data (by decide)⟩,
   (extension_dispatch_spec decodeOkPages decodeOkPages decodeFailTxt []).2.2.2⟩

/-- Claim C1: `locate` reports found exactly when the lowercased answer is
a substring (infix) of the lowercased context; when found, the offset `s`
is the first (leftmost) case-insensitive occurrence, the end offset is
`s + length answer`, and the slice `context[s:e]` lowercases to the
lowercased answer. -/
theorem locate_found_spec (context answer : List Char) :
    ((locate context answer).found = true ↔ pyLower answer <:+: pyLower context) ∧
    (∀ s, firstOccur (pyLower context) (pyLower answer) = some s →
      (∀ m, m < s → ¬ pyLower answer <+: (pyLower context).drop m) ∧
      pyLower answer <+: (pyLower context).drop s ∧
      pyLower (pySlice context s (s + answer.length)) = pyLower answer) := by
  constructor
  · rw [infix_iff_exists_drop]
    cases hocc : firstOccur (pyLower context) (pyLower answer) with
    | none =>
      simp only [locate, hocc]
      constructor
      · intro hf
        simp at hf
      · rintro ⟨n, hn⟩
        exact absurd hn (firstOccur_none hocc n)
    | some s =>
      simp only [locate, hocc]
      constructor
      · intro _
        exact ⟨s, firstOccur_some_pre hocc⟩
      · intro _
        trivial
  · intro s hocc
    refine ⟨firstOccur_some_min hocc, firstOccur_some_pre hocc, ?_⟩
    have hpre := firstOccur_some_pre hocc
    rw [List.prefix_iff_eq_take] at hpre
    have hlen : (pyLower answer).length = answer.length := by
      simp [pyLower]
    rw [hlen] at hpre
    simp only [pyLower] at hpre ⊢
    rw [← List.map_drop, ← List.map_take] at hpre
    simp only [pySlice]
    have harith : s + answer.length - s = answer.length := by omega
    rw [harith]
    exact hpre.symm

/-- Witness for C1 at context "aBc", answer "B" (found at offset 1). -/
theorem locate_found_spec_witness :
    (∀ m, m < 1 → ¬ pyLower "B".data <+: (pyLower "aBc".data).drop m) ∧
    pyLower "B".data <+: (pyLower "aBc".data).drop 1 ∧
    pyLower (pySlice "aBc".data 1 (1 + ("B".data).length)) = pyLower "B".data :=
  (locate_found_spec "aBc".data "B".data).2 1 (by decide)

/-- Claim C6: when `locate` finds the answer at offset `s` with end offset
`e = s + length answer`, the window runs from `max(0, s-100)` (Nat
subtraction) to `min(length context, e+100)`; `before` carries a leading
ellipsis exactly when the window start is positive, `after` a trailing one
exactly when the window end falls short of the context's end, and both are
at most `windowRadius + 3` characters long. -/
theorem locate_window_spec (context answer : List Char)
    (h : (locate context answer).found = true) :
    ∃ s, firstOccur (pyLower context) (pyLower answer) = some s ∧
      locate context answer =
        { found := true
          before := (if 0 < s - windowRadius then ellipsis else []) ++
            pySlice context (s - windowRadius) s
          answer := pySlice context s (s + answer.length)
          after := pySlice context (s + answer.length)
              (min context.length (s + answer.length + windowRadius)) ++
            (if min context.length (s + answer.length + windowRadius) <
                context.length then ellipsis else []) } ∧
      (locate context answer).before.length ≤ windowRadius + 3 ∧
      (locate context answer).after.length ≤ windowRadius + 3 := by
  cases hocc : firstOccur (pyLower context) (pyLower answer) with
  | none =>
    simp only [locate, hocc] at h
    exact absurd h (by simp)
  | some s =>
    have hb : ∀ (c : Prop) [Decidable c] (b : List Char),
        (if c then ellipsis ++ b else b) = (if c then ellipsis else []) ++ b := by
      intro c inst b
      split <;> simp
    have ha : ∀ (c : Prop) [Decidable c] (b : List Char),
        (if c then b ++ ellipsis else b) = b ++ (if c then ellipsis else []) := by
      intro c inst b
      split <;> simp
    have hEq : locate context answer =
        { found := true
          before := (if 0 < s - windowRadius then ellipsis else []) ++
            pySlice context (s - windowRadius) s
          answer := pySlice context s (s + answer.length)
          after := pySlice context (s + answer.length)
              (min context.length (s + answer.length + windowRadius)) ++
            (if min context.length (s + answer.length + windowRadius) <
                context.length then ellipsis else []) } := by
      simp only [locate, hocc]
      rw [hb, ha]
    refine ⟨s, rfl, hEq, ?_, ?_⟩
    · rw [hEq]
      dsimp only
      rw [List.length_append]
      have h1 := pySlice_length_le context (s - windowRadius) s
      split
      next => rw [show ellipsis.length = 3 from rfl]; omega
      next => rw [List.length_nil]; omega
    · rw [hEq]
      dsimp only
      rw [List.length_append]
      have h1 := pySlice_length_le context (s + answer.length)
          (min context.length (s + answer.length + windowRadius))
      have h2 : min context.length (s + answer.length + windowRadius) -
          (s + answer.length) ≤ windowRadius := by
        have := min_le_right context.length (s + answer.length + windowRadius)
        omega
      split
      next => rw [show ellipsis.length = 3 from rfl]; omega
      next => rw [List.length_nil]; omega

/-- Witness for C6 at context "abc", answer "b" (found at offset 1, both
window edges clamped to the context). -/
theorem locate_window_spec_witness :
    (locate "abc".data "b".data).found = true ∧
    ∃ s, firstOccur (pyLower "abc".data) (pyLower "b".data) = some s ∧
      locate "abc".data "b".data =
        { found := true
          before := (if 0 < s - windowRadius then ellipsis else []) ++
            pySlice "abc".data (s - windowRadius) s
          answer := pySlice "abc".data s (s + ("b".data).length)
          after := pySlice "abc".data (s + ("b".data).length)
              (min ("abc".data).length (s + ("b".data).length + windowRadius)) ++
            (if min ("abc".data).length (s + ("b".data).length + windowRadius) <
                ("abc".data).length then ellipsis else []) } ∧
      (locate "abc".data "b".data).before.length ≤ windowRadius + 3 ∧
      (locate "abc".data "b".data).after.length ≤ windowRadius + 3 :=
  ⟨by decide, locate_window_spec "abc".data "b".data (by decide)⟩

/-- Claim C9: for the empty answer the locator always reports found at
offset 0; the highlighted answer and the text before it are empty, and the
window after it is the first `windowRadius` characters of the context, with
a trailing ellipsis exactly when the context is longer than the window.
The not-found branch is never taken for an empty answer. -/
theorem locate_empty_answer (context : List Char) :
    firstOccur (pyLower context) (pyLower []) = some 0 ∧
    locate context [] =
      { found := true, before := [], answer := [],
        after := context.take windowRadius ++
          (if windowRadius < context.length then ellipsis else []) } := by
  have hocc : firstOccur (pyLower context) (pyLower []) = some 0 := by
    cases context <;> simp [firstOccur, pyLower, isPre]
  refine ⟨hocc, ?_⟩
  have hcond : (min context.length windowRadius < context.length) ↔
      (windowRadius < context.length) := by
    rcases le_total context.length windowRadius with hle | hle
    · rw [min_eq_left hle]
      omega
    · rw [min_eq_right hle]
  simp only [locate, hocc, List.length_nil, Nat.add_zero, Nat.zero_add, Nat.zero_sub,
    pySlice, List.drop_zero, Nat.sub_zero, Nat.sub_self, List.take_zero,
    lt_self_iff_false, if_false, take_min_length, hcond]
  by_cases hw : windowRadius < context.length
  · rw [if_pos hw, if_pos hw]
  · rw [if_neg hw, if_neg hw, List.append_nil]
